import Mathlib

/-!
Shallow embedding of the deterministic discrete-event network simulator
from `node/src/components/consensus/tests/consensus_des_testing.rs`.

Machine integers (`u64` ids, `Timestamp` millis) only ever get compared
here, never overflowed, so they are embedded as `Nat`.  The `rand::Rng`
random source is embedded as an explicit state of an arbitrary type `R`
threaded through every operation, mirroring the `&mut R` parameter.
The `Queue` / `QueueEntry` module lives in a sibling file (`super::queue`)
that is not part of this source tree; its operations are modelled from the
specification (spec section 4.1).
-/

namespace DesTesting

/-- Embeds `ValidatorId(pub u64)`: an opaque, totally ordered identifier. -/
abbrev ValidatorId := Nat

/-- Embeds `Timestamp` (a `u64` milliseconds count; only ordered here). -/
abbrev Timestamp := Nat

/-- Embeds `struct Message<M> { sender: ValidatorId, payload: M }`. -/
structure Message (M : Type) where
  sender : ValidatorId
  payload : M
  deriving Repr, DecidableEq

/-- Embeds `enum Target { SingleValidator(ValidatorId), All }`. -/
inductive Target where
  | SingleValidator (id : ValidatorId)
  | All
  deriving Repr, DecidableEq

/-- Embeds `struct TargetedMessage<M> { message: Message<M>, target: Target }`. -/
structure TargetedMessage (M : Type) where
  message : Message M
  target : Target
  deriving Repr, DecidableEq

/-- Embeds `enum DeliverySchedule { AtInstant(Timestamp), Drop }`. -/
inductive DeliverySchedule where
  | AtInstant (t : Timestamp)
  | Drop
  deriving Repr, DecidableEq

/-- Embeds `DeliverySchedule::at`. -/
def DeliverySchedule.at (instant : Timestamp) : DeliverySchedule :=
  DeliverySchedule.AtInstant instant

/-- Embeds `impl From<Timestamp> for DeliverySchedule` (`AtInstant` of the
instant), the conversion applied by `send_messages` via `.into()`. -/
def DeliverySchedule.ofTimestamp (timestamp : Timestamp) : DeliverySchedule :=
  DeliverySchedule.at timestamp

/-- Modelled from the spec: `QueueEntry` of the missing `super::queue`
module, section 3 of the spec: "(delivery_time: timestamp, recipient:
ValidatorId, message: Message). The unit stored in the Delivery Queue and
returned by pop." -/
structure QueueEntry (M : Type) where
  delivery_time : Timestamp
  recipient : ValidatorId
  message : Message M
  deriving Repr, DecidableEq

/-- Modelled from the spec: the Delivery Queue of the missing
`super::queue` module, section 4.1: an ordered holding area of scheduled
deliveries.  Represented by the list of entries in push order. -/
abbrev Queue (M : Type) : Type := List (QueueEntry M)

/-- Modelled from the spec: `Queue::default()` is the empty queue. -/
def Queue.empty (M : Type) : Queue M := []

/-- Modelled from the spec: `push(entry)` inserts the entry. -/
def Queue.push {M : Type} (q : Queue M) (e : QueueEntry M) : Queue M :=
  q ++ [e]

/-- Modelled from the spec: `pop()` removes and returns the entry with the
smallest `delivery_time`, or reports empty.  The tie-break among equal
timestamps is implementation-defined but must be fixed and deterministic
(section 4.1); this model fixes it to the earliest-pushed minimal entry. -/
def Queue.pop {M : Type} : Queue M → Option (QueueEntry M × Queue M)
  | [] => none
  | e :: es =>
    match Queue.pop es with
    | none => some (e, [])
    | some (e', es') =>
      if e.delivery_time ≤ e'.delivery_time then some (e, es)
      else some (e', e :: es')

/-- Modelled from the spec: `clear()` discards all entries unconditionally. -/
def Queue.clear {M : Type} (_q : Queue M) : Queue M := []

/-- Popping the queue repeatedly until it reports empty, with explicit fuel
(the queue length suffices); returns the sequence of popped entries. -/
def Queue.popAllFuel {M : Type} : Nat → Queue M → List (QueueEntry M)
  | 0, _ => []
  | n + 1, q =>
    match Queue.pop q with
    | none => []
    | some (e, q') => e :: Queue.popAllFuel n q'

/-- Popping the queue until empty: drains the whole queue. -/
def Queue.popAll {M : Type} (q : Queue M) : List (QueueEntry M) :=
  Queue.popAllFuel q.length q

/-- Embeds `struct Validator<C, M, D>`: identity, fault flag, histories and
the opaque consensus instance. -/
structure Validator (C M D : Type) where
  id : ValidatorId
  is_faulty : Bool
  finalized_values : List C
  messages_received : List (Message M)
  messages_produced : List M
  consensus : D

/-- Embeds `Validator::new`: empty histories. -/
def Validator.new {C M D : Type} (id : ValidatorId) (is_faulty : Bool) (consensus : D) :
    Validator C M D :=
  { id := id, is_faulty := is_faulty, finalized_values := [],
    messages_received := [], messages_produced := [], consensus := consensus }

/-- Embeds `Validator::push_finalized`: `self.finalized_values.extend(..)`. -/
def Validator.push_finalized {C M D : Type} (v : Validator C M D) (fin : List C) :
    Validator C M D :=
  { v with finalized_values := v.finalized_values ++ fin }

/-- Embeds `Validator::push_messages_received`: extend of the received list. -/
def Validator.push_messages_received {C M D : Type} (v : Validator C M D)
    (messages : List (Message M)) : Validator C M D :=
  { v with messages_received := v.messages_received ++ messages }

/-- Embeds `Validator::push_messages_produced`: extend of the produced list. -/
def Validator.push_messages_produced {C M D : Type} (v : Validator C M D)
    (messages : List M) : Validator C M D :=
  { v with messages_produced := v.messages_produced ++ messages }

/-- Embeds the `Strategy<Item>` trait over a random source of state type
`R`: `fn map<R: Rng>(&self, rng: &mut R, i: Item) -> Item`, the `&mut`
random source made explicit as state passing. -/
def StrategyFn (R Item : Type) : Type := R → Item → Item × R

/-- Embeds the trait's provided default body of `Strategy::map`: `i`
returned unchanged, the random source untouched. -/
def Strategy.defaultMap {R Item : Type} (rng : R) (i : Item) : Item × R :=
  (i, rng)

/-- Embeds `NoOpDelay`'s `Strategy<DeliverySchedule>` impl: identity. -/
def noOpDelay {R : Type} : StrategyFn R DeliverySchedule :=
  fun rng i => (i, rng)

/-- Embeds the `BTreeMap<ValidatorId, Validator>` as an association list
strictly sorted by key; `insert` keeps keys sorted and unique, replacing
the value on an equal key, as `BTreeMap::insert` / `collect` do. -/
def btInsert {V : Type} : List (ValidatorId × V) → ValidatorId → V → List (ValidatorId × V)
  | [], k, v => [(k, v)]
  | (k', v') :: rest, k, v =>
    if k < k' then (k, v) :: (k', v') :: rest
    else if k = k' then (k, v) :: rest
    else (k', v') :: btInsert rest k v

/-- Embeds `BTreeMap::get`: first (only) binding of the key, if any. -/
def btLookup {V : Type} : List (ValidatorId × V) → ValidatorId → Option V
  | [], _ => none
  | (k', v') :: rest, k => if k = k' then some v' else btLookup rest k

/-- Embeds `BTreeMap::get_mut` followed by an in-place mutation: the value
bound to the key, if any, is replaced by its image under `f`. -/
def btModify {V : Type} : List (ValidatorId × V) → ValidatorId → (V → V) →
    List (ValidatorId × V)
  | [], _, _ => []
  | (k', v') :: rest, k, f =>
    if k = k' then (k', f v') :: rest else (k', v') :: btModify rest k f

/-- Embeds `BTreeMap::keys`: the keys in storage (ascending) order. -/
def btKeys {V : Type} (m : List (ValidatorId × V)) : List ValidatorId :=
  m.map Prod.fst

/-- Well-formedness of the `BTreeMap` model: keys pairwise strictly
ascending (the invariant `BTreeMap` maintains). -/
abbrev btWF {V : Type} (m : List (ValidatorId × V)) : Prop :=
  List.Pairwise (· < ·) (btKeys m)

/-- Embeds `struct VirtualNet<C, D, M, DS>`: the validator registry, the
message queue and the delivery-time strategy. -/
structure VirtualNet (C D M R : Type) where
  validators_map : List (ValidatorId × Validator C M D)
  msg_queue : Queue M
  delivery_time_strategy : StrategyFn R DeliverySchedule

/-- Embeds `VirtualNet::new`: collect the validators into the map keyed by
their id, push every initial message onto a default queue. -/
def VirtualNet.new {C D M R : Type} (validators : List (Validator C M D))
    (delivery_time_strategy : StrategyFn R DeliverySchedule)
    (init_messages : List (QueueEntry M)) : VirtualNet C D M R :=
  { validators_map := validators.foldl (fun m v => btInsert m v.id v) []
    msg_queue := init_messages.foldl Queue.push (Queue.empty M)
    delivery_time_strategy := delivery_time_strategy }

/-- Embeds `VirtualNet::pop_message`: pop the earliest entry off the queue. -/
def VirtualNet.pop_message {C D M R : Type} (net : VirtualNet C D M R) :
    Option (QueueEntry M) × VirtualNet C D M R :=
  match Queue.pop net.msg_queue with
  | none => (none, net)
  | some (e, q') => (some e, { net with msg_queue := q' })

/-- Embeds `VirtualNet::get_validator`: `self.validators_map.get(&validator)`. -/
def VirtualNet.get_validator {C D M R : Type} (net : VirtualNet C D M R)
    (validator : ValidatorId) : Option (Validator C M D) :=
  btLookup net.validators_map validator

/-- Embeds `VirtualNet::validator`: also `self.validators_map.get(validator_id)`. -/
def VirtualNet.validator {C D M R : Type} (net : VirtualNet C D M R)
    (validator_id : ValidatorId) : Option (Validator C M D) :=
  btLookup net.validators_map validator_id

/-- Embeds the read step of `VirtualNet::get_validator_mut`
(`self.validators_map.get_mut(validator_id)`): which validator, if any, the
returned mutable reference designates. -/
def VirtualNet.get_validator_mut {C D M R : Type} (net : VirtualNet C D M R)
    (validator_id : ValidatorId) : Option (Validator C M D) :=
  btLookup net.validators_map validator_id

/-- Embeds the write-back through `VirtualNet::get_validator_mut`: mutating
the validator the reference designates in place, a no-op when absent. -/
def VirtualNet.modify_validator {C D M R : Type} (net : VirtualNet C D M R)
    (validator_id : ValidatorId) (f : Validator C M D → Validator C M D) :
    VirtualNet C D M R :=
  { net with validators_map := btModify net.validators_map validator_id f }

/-- Embeds `VirtualNet::validators_ids`: `self.validators_map.keys()`. -/
def VirtualNet.validators_ids {C D M R : Type} (net : VirtualNet C D M R) :
    List ValidatorId :=
  btKeys net.validators_map

/-- Embeds `VirtualNet::schedule_message`: build the `QueueEntry` and push. -/
def VirtualNet.schedule_message {C D M R : Type} (net : VirtualNet C D M R)
    (delivery_time : Timestamp) (recipient : ValidatorId) (message : Message M) :
    VirtualNet C D M R :=
  { net with msg_queue :=
      Queue.push net.msg_queue (QueueEntry.mk delivery_time recipient message) }

/-- Embeds `VirtualNet::empty_queue`: `self.msg_queue.clear()`. -/
def VirtualNet.empty_queue {C D M R : Type} (net : VirtualNet C D M R) :
    VirtualNet C D M R :=
  { net with msg_queue := Queue.clear net.msg_queue }

/-- Embeds `VirtualNet::send_messages`: for each recipient consult the
delivery strategy on `base_delivery_time.into()`; on `Drop` do nothing, on
`AtInstant dt` schedule the message clone for that recipient at `dt`.  The
`for` loop over recipients is the structural recursion on the list. -/
def VirtualNet.send_messages {C D M R : Type} (net : VirtualNet C D M R) (rand : R) :
    List ValidatorId → Message M → Timestamp → VirtualNet C D M R × R
  | [], _, _ => (net, rand)
  | validator_id :: rest, message, base_delivery_time =>
    match net.delivery_time_strategy rand (DeliverySchedule.ofTimestamp base_delivery_time) with
    | (DeliverySchedule.Drop, rand') =>
      VirtualNet.send_messages net rand' rest message base_delivery_time
    | (DeliverySchedule.AtInstant dt, rand') =>
      VirtualNet.send_messages (net.schedule_message dt validator_id message) rand' rest
        message base_delivery_time

/-- Embeds the recipient resolution `match target` inside
`VirtualNet::dispatch_messages`: `All` snapshots the registered ids,
`SingleValidator` the singleton. -/
def VirtualNet.resolveRecipients {C D M R : Type} (net : VirtualNet C D M R)
    (target : Target) : List ValidatorId :=
  match target with
  | Target.All => net.validators_ids
  | Target.SingleValidator recipient_id => [recipient_id]

/-- Embeds `VirtualNet::dispatch_messages`: for each targeted message,
resolve recipients then `send_messages`; the `for` loop over messages is
the structural recursion on the list. -/
def VirtualNet.dispatch_messages {C D M R : Type} (net : VirtualNet C D M R) (rand : R)
    (delivery_time : Timestamp) : List (TargetedMessage M) → VirtualNet C D M R × R
  | [] => (net, rand)
  | tm :: rest =>
    let recipients := net.resolveRecipients tm.target
    let (net', rand') := net.send_messages rand recipients tm.message delivery_time
    VirtualNet.dispatch_messages net' rand' delivery_time rest

/-- One call of the external test driver into the `VirtualNet`, with its
arguments: either `dispatch_messages` (the random source is part of the
run state, seeded once) or `pop_message`. -/
inductive DriverCall (M : Type) where
  | dispatch (delivery_time : Timestamp) (messages : List (TargetedMessage M))
  | pop

/-- The state a run threads: the `VirtualNet` plus the explicit random
source state (the seeded `Rng` the driver passes into each dispatch). -/
abbrev NetState (C D M R : Type) := VirtualNet C D M R × R

/-- The observation the driver makes after one call: the queue contents
after the call, and the popped entry when the call was a pop. -/
abbrev Observation (M : Type) := Queue M × Option (QueueEntry M)

/-- Small-step relation of the simulator: one driver call against the
current state, yielding the next state and the observation. -/
inductive Step {C D M R : Type} :
    NetState C D M R → DriverCall M → NetState C D M R × Observation M → Prop where
  | dispatch (net : VirtualNet C D M R) (rand : R) (delivery_time : Timestamp)
      (messages : List (TargetedMessage M)) :
      Step (net, rand) (DriverCall.dispatch delivery_time messages)
        (net.dispatch_messages rand delivery_time messages,
          ((net.dispatch_messages rand delivery_time messages).1.msg_queue, none))
  | pop (net : VirtualNet C D M R) (rand : R) :
      Step (net, rand) DriverCall.pop
        ((net.pop_message.2, rand), (net.pop_message.2.msg_queue, net.pop_message.1))

/-- A run: a sequence of driver calls from a state, with the sequence of
observations (queue contents after each call, popped entries) it makes. -/
inductive Run {C D M R : Type} :
    NetState C D M R → List (DriverCall M) → List (Observation M) →
      NetState C D M R → Prop where
  | nil (s : NetState C D M R) : Run s [] [] s
  | cons {s : NetState C D M R} {c : DriverCall M} {s' : NetState C D M R}
      {obs : Observation M} {cs : List (DriverCall M)} {obss : List (Observation M)}
      {s'' : NetState C D M R} :
      Step s c (s', obs) → Run s' cs obss s'' → Run s (c :: cs) (obs :: obss) s''

/-! Queue lemmas: `pop` returns a minimal-timestamp entry and the rest. -/

theorem Queue.pop_cons_isSome {M : Type} (e : QueueEntry M) (es : Queue M) :
    (Queue.pop (e :: es)).isSome := by
  simp only [Queue.pop]
  cases Queue.pop es with
  | none => rfl
  | some p =>
    cases p with
    | mk e' es' =>
      dsimp only
      split <;> rfl

theorem Queue.eq_nil_of_pop_eq_none {M : Type} {q : Queue M}
    (h : Queue.pop q = none) : q = [] := by
  cases q with
  | nil => rfl
  | cons e es =>
    have hs := Queue.pop_cons_isSome e es
    rw [h] at hs
    simp at hs

theorem Queue.pop_perm {M : Type} :
    ∀ {q q' : Queue M} {e : QueueEntry M}, Queue.pop q = some (e, q') →
      q.Perm (e :: q') := by
  intro q
  induction q with
  | nil => intro q' e h; simp [Queue.pop] at h
  | cons a as ih =>
    intro q' e h
    simp only [Queue.pop] at h
    cases hes : Queue.pop as with
    | none =>
      rw [hes] at h
      simp only [Option.some.injEq, Prod.mk.injEq] at h
      obtain ⟨he, hq⟩ := h
      subst he; subst hq
      have : as = [] := Queue.eq_nil_of_pop_eq_none hes
      subst this
      exact List.Perm.refl _
    | some p =>
      cases p with
      | mk e'' as'' =>
        rw [hes] at h
        dsimp only at h
        have hperm : as.Perm (e'' :: as'') := ih hes
        split at h <;>
          (simp only [Option.some.injEq, Prod.mk.injEq] at h;
           obtain ⟨he, hq⟩ := h; subst he; subst hq)
        · exact List.Perm.refl _
        · exact List.Perm.trans (List.Perm.cons a hperm) (List.Perm.swap _ _ _)

theorem Queue.pop_min {M : Type} :
    ∀ {q q' : Queue M} {e : QueueEntry M}, Queue.pop q = some (e, q') →
      ∀ x ∈ q', e.delivery_time ≤ x.delivery_time := by
  intro q
  induction q with
  | nil => intro q' e h; simp [Queue.pop] at h
  | cons a as ih =>
    intro q' e h
    simp only [Queue.pop] at h
    cases hes : Queue.pop as with
    | none =>
      rw [hes] at h
      simp only [Option.some.injEq, Prod.mk.injEq] at h
      obtain ⟨he, hq⟩ := h
      subst he; subst hq
      intro x hx
      simp at hx
    | some p =>
      cases p with
      | mk e'' as'' =>
        rw [hes] at h
        dsimp only at h
        have hmin : ∀ x ∈ as'', e''.delivery_time ≤ x.delivery_time := ih hes
        have hperm : as.Perm (e'' :: as'') := Queue.pop_perm hes
        split at h
        case isTrue hle =>
          simp only [Option.some.injEq, Prod.mk.injEq] at h
          obtain ⟨he, hq⟩ := h
          subst he; subst hq
          intro x hx
          have hx' : x ∈ e'' :: as'' := hperm.mem_iff.mp hx
          rcases List.mem_cons.mp hx' with hx'' | hx''
          · subst hx''; exact hle
          · exact le_trans hle (hmin x hx'')
        case isFalse hlt =>
          simp only [Option.some.injEq, Prod.mk.injEq] at h
          obtain ⟨he, hq⟩ := h
          subst he; subst hq
          intro x hx
          rcases List.mem_cons.mp hx with hx'' | hx''
          · subst hx''; exact le_of_lt (lt_of_not_le hlt)
          · exact hmin x hx''

theorem Queue.popAllFuel_mem {M : Type} :
    ∀ (n : Nat) (q : Queue M) (x : QueueEntry M),
      x ∈ Queue.popAllFuel n q → x ∈ q := by
  intro n
  induction n with
  | zero => intro q x hx; simp [Queue.popAllFuel] at hx
  | succ n ih =>
    intro q x hx
    simp only [Queue.popAllFuel] at hx
    cases hq : Queue.pop q with
    | none => rw [hq] at hx; simp at hx
    | some p =>
      cases p with
      | mk e q' =>
        rw [hq] at hx
        have hperm := Queue.pop_perm hq
        rcases List.mem_cons.mp hx with hx' | hx'
        · subst hx'; exact hperm.mem_iff.mpr (List.mem_cons_self _ _)
        · exact hperm.mem_iff.mpr (List.mem_cons_of_mem _ (ih q' x hx'))

theorem Queue.popAllFuel_pairwise {M : Type} :
    ∀ (n : Nat) (q : Queue M),
      List.Pairwise (fun a b => a.delivery_time ≤ b.delivery_time)
        (Queue.popAllFuel n q) := by
  intro n
  induction n with
  | zero => intro q; simp [Queue.popAllFuel]
  | succ n ih =>
    intro q
    simp only [Queue.popAllFuel]
    cases hq : Queue.pop q with
    | none => simp
    | some p =>
      cases p with
      | mk e q' =>
        dsimp only
        refine List.pairwise_cons.mpr ⟨?_, ih q'⟩
        intro x hx
        exact Queue.pop_min hq x (Queue.popAllFuel_mem n q' x hx)

theorem Queue.popAllFuel_perm {M : Type} :
    ∀ (n : Nat) (q : Queue M), q.length ≤ n → (Queue.popAllFuel n q).Perm q := by
  intro n
  induction n with
  | zero =>
    intro q hq
    have : q = [] := List.eq_nil_of_length_eq_zero (Nat.le_zero.mp hq)
    subst this
    simp [Queue.popAllFuel]
  | succ n ih =>
    intro q hq
    simp only [Queue.popAllFuel]
    cases hpop : Queue.pop q with
    | none =>
      have : q = [] := Queue.eq_nil_of_pop_eq_none hpop
      subst this; simp
    | some p =>
      cases p with
      | mk e q' =>
        dsimp only
        have hperm := Queue.pop_perm hpop
        have hlen : q.length = q'.length + 1 := by
          have := hperm.length_eq
          simpa using this
        have hle : q'.length ≤ n := by omega
        exact List.Perm.trans (List.Perm.cons e (ih q' hle)) hperm.symm

theorem Queue.popAll_perm {M : Type} (q : Queue M) : (Queue.popAll q).Perm q :=
  Queue.popAllFuel_perm q.length q (Nat.le_refl _)

theorem Queue.foldl_push_eq_append {M : Type} (q : Queue M)
    (l : List (QueueEntry M)) : l.foldl Queue.push q = q ++ l := by
  induction l generalizing q with
  | nil => simp
  | cons e es ih => simp [Queue.push, ih]

/-- Claim C2: pushing any sequence of entries (arbitrary, possibly
reverse-sorted delivery timestamps) into an empty queue and then popping
until empty returns the entries in non-decreasing `delivery_time` order,
and returns exactly the pushed entries (all n of them), regardless of the
push order. -/
theorem queue_ordering (M : Type) (l : List (QueueEntry M)) :
    List.Pairwise (fun a b => a.delivery_time ≤ b.delivery_time)
      (Queue.popAll (l.foldl Queue.push (Queue.empty M))) ∧
    (Queue.popAll (l.foldl Queue.push (Queue.empty M))).Perm l := by
  have hq : l.foldl Queue.push (Queue.empty M) = l := by
    simpa [Queue.empty] using Queue.foldl_push_eq_append (Queue.empty M) l
  constructor
  · exact Queue.popAllFuel_pairwise _ _
  · rw [hq]
    exact Queue.popAll_perm l

/-! Association-list (`BTreeMap` model) lemmas. -/

theorem btKeys_cons {V : Type} (p : ValidatorId × V) (m : List (ValidatorId × V)) :
    btKeys (p :: m) = p.1 :: btKeys m := rfl

theorem btLookup_eq_none_iff {V : Type} :
    ∀ (m : List (ValidatorId × V)) (k : ValidatorId),
      btLookup m k = none ↔ k ∉ btKeys m := by
  intro m
  induction m with
  | nil => intro k; simp [btLookup, btKeys]
  | cons p rest ih =>
    intro k
    cases p with
    | mk k' v' =>
      by_cases hk : k = k'
      · subst hk
        simp [btLookup, btKeys]
      · simp [btLookup, btKeys, hk, ih k]

theorem btLookup_isSome_of_mem_keys {V : Type} {m : List (ValidatorId × V)}
    {k : ValidatorId} (h : k ∈ btKeys m) :
    ∃ v, btLookup m k = some v ∧ (k, v) ∈ m := by
  induction m with
  | nil => simp [btKeys] at h
  | cons p rest ih =>
    cases p with
    | mk k' v' =>
      by_cases hk : k = k'
      · subst hk
        exact ⟨v', by simp [btLookup], by simp⟩
      · have h' : k ∈ btKeys rest := by
          simpa [btKeys, hk] using h
        obtain ⟨v, hv, hmem⟩ := ih h'
        exact ⟨v, by simp [btLookup, hk, hv], List.mem_cons_of_mem _ hmem⟩

theorem btLookup_of_mem_wf {V : Type} :
    ∀ {m : List (ValidatorId × V)} {k : ValidatorId} {v : V},
      btWF m → (k, v) ∈ m → btLookup m k = some v := by
  intro m
  induction m with
  | nil => intro k v _ h; simp at h
  | cons p rest ih =>
    intro k v hwf hmem
    cases p with
    | mk k' v' =>
      have hwf' : btWF rest := by
        have := List.pairwise_cons.mp hwf
        exact this.2
      rcases List.mem_cons.mp hmem with heq | hmem'
      · obtain ⟨hk, hv⟩ := Prod.mk.injEq .. ▸ heq
        subst hk; subst hv
        simp [btLookup]
      · have hk : k ≠ k' := by
          intro hkk
          subst hkk
          have hklt := (List.pairwise_cons.mp hwf).1
          have : k ∈ btKeys rest := by
            exact List.mem_map_of_mem Prod.fst hmem'
          exact lt_irrefl k (hklt k this)
        simp [btLookup, hk, ih hwf' hmem']

theorem btLookup_modify_ne {V : Type} :
    ∀ (m : List (ValidatorId × V)) (k1 k2 : ValidatorId) (f : V → V),
      k2 ≠ k1 → btLookup (btModify m k1 f) k2 = btLookup m k2 := by
  intro m
  induction m with
  | nil => intro k1 k2 f _; simp [btModify]
  | cons p rest ih =>
    intro k1 k2 f hne
    cases p with
    | mk k' v' =>
      by_cases h1 : k1 = k'
      · subst h1
        simp [btModify, btLookup, hne]
      · by_cases h2 : k2 = k'
        · subst h2
          simp [btModify, btLookup, h1]
        · simp [btModify, btLookup, h1, h2, ih k1 k2 f hne]

theorem btLookup_modify_self {V : Type} :
    ∀ (m : List (ValidatorId × V)) (k : ValidatorId) (f : V → V),
      btLookup (btModify m k f) k = (btLookup m k).map f := by
  intro m
  induction m with
  | nil => intro k f; simp [btModify, btLookup]
  | cons p rest ih =>
    intro k f
    cases p with
    | mk k' v' =>
      by_cases h : k = k'
      · subst h
        simp [btModify, btLookup]
      · simp [btModify, btLookup, h, ih k f]

theorem btKeys_insert_mem {V : Type} :
    ∀ (m : List (ValidatorId × V)) (k : ValidatorId) (v : V) (x : ValidatorId),
      x ∈ btKeys (btInsert m k v) → x = k ∨ x ∈ btKeys m := by
  intro m
  induction m with
  | nil => intro k v x hx; simp [btInsert, btKeys] at hx; exact Or.inl hx
  | cons p rest ih =>
    intro k v x hx
    cases p with
    | mk k' v' =>
      simp only [btInsert] at hx
      by_cases h1 : k < k'
      · rw [if_pos h1] at hx
        simpa [btKeys, or_assoc] using hx
      · rw [if_neg h1] at hx
        by_cases h2 : k = k'
        · rw [if_pos h2] at hx
          rw [btKeys_cons] at hx
          rcases List.mem_cons.mp hx with h | h
          · exact Or.inl h
          · exact Or.inr (by rw [btKeys_cons]; exact List.mem_cons_of_mem _ h)
        · rw [if_neg h2] at hx
          rw [btKeys_cons] at hx
          rcases List.mem_cons.mp hx with h | h
          · exact Or.inr (by rw [btKeys_cons]; exact List.mem_cons.mpr (Or.inl h))
          · rcases ih k v x h with h' | h'
            · exact Or.inl h'
            · exact Or.inr (by rw [btKeys_cons]; exact List.mem_cons_of_mem _ h')

theorem btInsert_wf {V : Type} :
    ∀ (m : List (ValidatorId × V)) (k : ValidatorId) (v : V),
      btWF m → btWF (btInsert m k v) := by
  intro m
  induction m with
  | nil => intro k v _; simp [btInsert, btWF, btKeys]
  | cons p rest ih =>
    intro k v hwf
    cases p with
    | mk k' v' =>
      have hpair := List.pairwise_cons.mp hwf
      simp only [btInsert]
      by_cases h1 : k < k'
      · rw [if_pos h1]
        refine List.pairwise_cons.mpr ⟨?_, hwf⟩
        intro x hx
        rcases (by simpa [btKeys] using hx : x = k' ∨ x ∈ btKeys rest) with h | h
        · subst h; exact h1
        · exact lt_trans h1 (hpair.1 x h)
      · rw [if_neg h1]
        by_cases h2 : k = k'
        · rw [if_pos h2]
          subst h2
          exact List.pairwise_cons.mpr ⟨hpair.1, hpair.2⟩
        · rw [if_neg h2]
          refine List.pairwise_cons.mpr ⟨?_, ih k v hpair.2⟩
          intro x hx
          rcases btKeys_insert_mem rest k v x hx with h | h
          · subst h
            exact lt_of_le_of_ne (le_of_not_lt h1) (fun hh => h2 hh.symm)
          · exact hpair.1 x h

theorem btFold_insert_wf {C M D : Type} :
    ∀ (validators : List (Validator C M D)) (m : List (ValidatorId × Validator C M D)),
      btWF m → btWF (validators.foldl (fun m v => btInsert m v.id v) m) := by
  intro validators
  induction validators with
  | nil => intro m hm; simpa using hm
  | cons v rest ih =>
    intro m hm
    exact ih (btInsert m v.id v) (btInsert_wf m v.id v hm)

/-- Claim C7: the delivery strategy's default behavior (the trait's
provided `Strategy::map` body, and the `NoOpDelay` impl used in tests),
for every random source state and every proposed `AtInstant t` input,
returns `AtInstant` with the instant `t` unchanged and leaves the random
source untouched: it never drops and never alters the instant. -/
theorem identity_default_strategy (R : Type) (rng : R) (t : Timestamp) :
    Strategy.defaultMap rng (DeliverySchedule.AtInstant t) =
        (DeliverySchedule.AtInstant t, rng) ∧
      noOpDelay rng (DeliverySchedule.AtInstant t) =
        (DeliverySchedule.AtInstant t, rng) :=
  ⟨rfl, rfl⟩

/-- Claim C9: scheduling a single `QueueEntry` onto a net whose queue is
empty and immediately popping returns an entry with identical
`delivery_time`, `recipient` and `message`, leaving the queue empty. -/
theorem round_trip_identity {C D M R : Type} (net : VirtualNet C D M R)
    (h : net.msg_queue = []) (t : Timestamp) (r : ValidatorId) (m : Message M) :
    ((net.schedule_message t r m).pop_message).1 = some (QueueEntry.mk t r m) ∧
      ((net.schedule_message t r m).pop_message).2.msg_queue = [] := by
  simp [VirtualNet.schedule_message, VirtualNet.pop_message, Queue.push, Queue.pop, h]

/-- Witness for C9 at a concrete net: one validator, empty queue. -/
theorem round_trip_identity_witness :
    (((VirtualNet.new (C := Nat) (D := Nat) (M := Nat) (R := Nat)
            [Validator.new 1 false 0] noOpDelay []).schedule_message 7 1
          (Message.mk 1 42)).pop_message).1 =
        some (QueueEntry.mk 7 1 (Message.mk 1 42)) ∧
      (((VirtualNet.new (C := Nat) (D := Nat) (M := Nat) (R := Nat)
            [Validator.new 1 false 0] noOpDelay []).schedule_message 7 1
          (Message.mk 1 42)).pop_message).2.msg_queue = [] :=
  round_trip_identity _ rfl 7 1 (Message.mk 1 42)

/-- Claim C5: lookup of a `ValidatorId` absent from the registry returns
the explicit absent result `none` (and that is the only way `none`
arises); lookup of a present id returns the corresponding validator; the
three lookup operations `get_validator`, `validator` and
`get_validator_mut` agree, and none of them touches the net's state (they
are pure reads in this embedding). -/
theorem absent_validator_lookup {C D M R : Type} (net : VirtualNet C D M R)
    (id : ValidatorId) :
    (net.get_validator id = none ↔ id ∉ net.validators_ids) ∧
      (id ∈ net.validators_ids →
        ∃ v, net.get_validator id = some v ∧ (id, v) ∈ net.validators_map) ∧
      (btWF net.validators_map →
        ∀ v, (id, v) ∈ net.validators_map → net.get_validator id = some v) ∧
      net.validator id = net.get_validator id ∧
      net.get_validator_mut id = net.get_validator id := by
  refine ⟨btLookup_eq_none_iff _ _, ?_, ?_, rfl, rfl⟩
  · intro h
    exact btLookup_isSome_of_mem_keys h
  · intro hwf v hv
    exact btLookup_of_mem_wf hwf hv

/-- Witness for C5 at a concrete net: id 2 is absent, id 1 present. -/
theorem absent_validator_lookup_witness :
    (VirtualNet.new (C := Nat) (D := Nat) (M := Nat) (R := Nat) [Validator.new 1 false 0]
          noOpDelay []).get_validator 2 = none :=
  (absent_validator_lookup
      (VirtualNet.new (C := Nat) (D := Nat) (M := Nat) (R := Nat) [Validator.new 1 false 0]
        noOpDelay []) 2).1.mpr (by decide)

/-- Claim C6: each accumulator push appends the given items at the end of
the corresponding history in call order (plain list append: no
deduplication, no reordering), leaves the validator's other two histories
unchanged, and — through the registry — leaves every other validator
untouched. -/
theorem accumulator_order_isolation {C D M R : Type} (net : VirtualNet C D M R)
    (id id' : ValidatorId) (hne : id' ≠ id) (v : Validator C M D)
    (fs : List C) (ms : List (Message M)) (ps : List M) :
    ((v.push_finalized fs).finalized_values = v.finalized_values ++ fs ∧
        (v.push_finalized fs).messages_received = v.messages_received ∧
        (v.push_finalized fs).messages_produced = v.messages_produced) ∧
      ((v.push_messages_received ms).messages_received = v.messages_received ++ ms ∧
        (v.push_messages_received ms).finalized_values = v.finalized_values ∧
        (v.push_messages_received ms).messages_produced = v.messages_produced) ∧
      ((v.push_messages_produced ps).messages_produced = v.messages_produced ++ ps ∧
        (v.push_messages_produced ps).finalized_values = v.finalized_values ∧
        (v.push_messages_produced ps).messages_received = v.messages_received) ∧
      ((net.modify_validator id (fun w => w.push_finalized fs)).get_validator id' =
          net.get_validator id' ∧
        (net.modify_validator id (fun w => w.push_messages_received ms)).get_validator
            id' = net.get_validator id' ∧
        (net.modify_validator id (fun w => w.push_messages_produced ps)).get_validator
            id' = net.get_validator id') ∧
      (net.modify_validator id (fun w => w.push_finalized fs)).get_validator id =
        (net.get_validator id).map (fun w => w.push_finalized fs) := by
  refine ⟨⟨rfl, rfl, rfl⟩, ⟨rfl, rfl, rfl⟩, ⟨rfl, rfl, rfl⟩, ⟨?_, ?_, ?_⟩, ?_⟩
  · exact btLookup_modify_ne _ _ _ _ hne
  · exact btLookup_modify_ne _ _ _ _ hne
  · exact btLookup_modify_ne _ _ _ _ hne
  · exact btLookup_modify_self _ _ _

/-- Witness for C6 at a concrete net: pushing finalized values to
validator 1 leaves validator 2's lookup unchanged. -/
theorem accumulator_order_isolation_witness :
    ((VirtualNet.new (C := Nat) (D := Nat) (M := Nat) (R := Nat)
          [Validator.new 1 false 0, Validator.new 2 false 0] noOpDelay
          []).modify_validator 1 (fun w => w.push_finalized [5])).get_validator 2 =
      (VirtualNet.new (C := Nat) (D := Nat) (M := Nat) (R := Nat)
          [Validator.new 1 false 0, Validator.new 2 false 0] noOpDelay
          []).get_validator 2 :=
  (accumulator_order_isolation
      (VirtualNet.new (C := Nat) (D := Nat) (M := Nat) (R := Nat)
        [Validator.new 1 false 0, Validator.new 2 false 0] noOpDelay [])
      1 2 (by decide) (Validator.new 1 false 0) [5] [] []).2.2.2.1.1

/-- Claim C8: in `dispatch_messages`, `Target::SingleValidator id`
resolves to exactly the singleton `[id]` and `Target::All` resolves to the
full list of registered ids, which (under the `BTreeMap` invariant, which
`VirtualNet::new` establishes) is strictly ascending; the resolution is the
snapshot `dispatch_messages` takes against the current registry before it
calls `send_messages`. -/
theorem recipient_resolution {C D M R : Type} (net : VirtualNet C D M R)
    (id : ValidatorId) (rand : R) (T : Timestamp) (tm : TargetedMessage M)
    (validators : List (Validator C M D)) (strat : StrategyFn R DeliverySchedule)
    (init : List (QueueEntry M)) :
    net.resolveRecipients (Target.SingleValidator id) = [id] ∧
      net.resolveRecipients Target.All = net.validators_ids ∧
      (btWF net.validators_map → List.Chain' (· < ·) net.validators_ids) ∧
      btWF (VirtualNet.new validators strat init).validators_map ∧
      net.dispatch_messages rand T [tm] =
        net.send_messages rand (net.resolveRecipients tm.target) tm.message T := by
  refine ⟨rfl, rfl, ?_, ?_, ?_⟩
  · intro hwf
    exact List.Pairwise.chain' hwf
  · exact btFold_insert_wf validators [] (by simp [btWF, btKeys])
  · simp [VirtualNet.dispatch_messages]

/-- Witness for C8 at a concrete net of validators 1 and 2 (inserted in
reverse order): the registered ids come out strictly ascending. -/
theorem recipient_resolution_witness :
    List.Chain' (· < ·)
      (VirtualNet.new (C := Nat) (D := Nat) (M := Nat) (R := Nat)
          [Validator.new 2 false 0, Validator.new 1 false 0] noOpDelay
          []).validators_ids :=
  (recipient_resolution
      (VirtualNet.new (C := Nat) (D := Nat) (M := Nat) (R := Nat)
        [Validator.new 2 false 0, Validator.new 1 false 0] noOpDelay [])
      1 0 0 (TargetedMessage.mk (Message.mk 1 0) Target.All) [] noOpDelay
      []).2.2.1 (by decide)

/-- Claim C10: `dispatch_messages` performs no registry-membership check on
single-validator targets: for an id `r` absent from the registry, a
`Target::SingleValidator r` message under a strategy resolving the proposed
time to `AtInstant t` is still enqueued with recipient `r` at time `t`, and
a subsequent `pop_message` (on an initially empty queue) returns it. -/
theorem unregistered_single_target_delivered {C D M R : Type}
    (net : VirtualNet C D M R) (rand : R) (T t : Timestamp) (r : ValidatorId)
    (m : Message M) (hr : r ∉ net.validators_ids)
    (hstrat : ∀ ρ, (net.delivery_time_strategy ρ (DeliverySchedule.ofTimestamp T)).1 =
      DeliverySchedule.AtInstant t) :
    (net.dispatch_messages rand T
          [TargetedMessage.mk m (Target.SingleValidator r)]).1.msg_queue =
        Queue.push net.msg_queue (QueueEntry.mk t r m) ∧
      (net.msg_queue = [] →
        ((net.dispatch_messages rand T
              [TargetedMessage.mk m (Target.SingleValidator r)]).1.pop_message).1 =
          some (QueueEntry.mk t r m)) := by
  have key : net.dispatch_messages rand T
      [TargetedMessage.mk m (Target.SingleValidator r)] =
      (net.schedule_message t r m,
        (net.delivery_time_strategy rand (DeliverySchedule.ofTimestamp T)).2) := by
    simp only [VirtualNet.dispatch_messages, VirtualNet.resolveRecipients,
      VirtualNet.send_messages]
    cases hm : net.delivery_time_strategy rand (DeliverySchedule.ofTimestamp T) with
    | mk sched rand' =>
      have hs := hstrat rand
      rw [hm] at hs
      dsimp only at hs
      subst hs
      rfl
  rw [key]
  constructor
  · rfl
  · intro hq
    simp [VirtualNet.schedule_message, VirtualNet.pop_message, Queue.push, Queue.pop, hq]

/-- Witness for C10: id 5 is not registered, yet the entry is enqueued and
popped back. -/
theorem unregistered_single_target_delivered_witness :
    ((VirtualNet.new (C := Nat) (D := Nat) (M := Nat) (R := Nat)
            [Validator.new 1 false 0] noOpDelay []).dispatch_messages 0 3
          [TargetedMessage.mk (Message.mk 1 9)
            (Target.SingleValidator 5)]).1.pop_message.1 =
      some (QueueEntry.mk 3 5 (Message.mk 1 9)) :=
  (unregistered_single_target_delivered
      (VirtualNet.new (C := Nat) (D := Nat) (M := Nat) (R := Nat)
        [Validator.new 1 false 0] noOpDelay [])
      0 3 3 5 (Message.mk 1 9) (by decide) (fun _ => rfl)).2 rfl

/-! `send_messages` / `dispatch_messages` frame lemmas: only the queue
changes; an entry appears only when the strategy said `AtInstant`. -/

theorem send_messages_frame {C D M R : Type} :
    ∀ (rs : List ValidatorId) (net : VirtualNet C D M R) (rand : R)
      (m : Message M) (T : Timestamp),
      ((net.send_messages rand rs m T).1).validators_map = net.validators_map ∧
        ((net.send_messages rand rs m T).1).delivery_time_strategy =
          net.delivery_time_strategy := by
  intro rs
  induction rs with
  | nil => intro net rand m T; exact ⟨rfl, rfl⟩
  | cons vid rest ih =>
    intro net rand m T
    simp only [VirtualNet.send_messages]
    split
    · exact ih net _ m T
    · exact ih (net.schedule_message _ vid m) _ m T

theorem send_messages_queue_drop {C D M R : Type} :
    ∀ (rs : List ValidatorId) (net : VirtualNet C D M R) (rand : R)
      (m : Message M) (T : Timestamp),
      (∀ ρ i, (net.delivery_time_strategy ρ i).1 = DeliverySchedule.Drop) →
      ((net.send_messages rand rs m T).1).msg_queue = net.msg_queue := by
  intro rs
  induction rs with
  | nil => intro net rand m T _; rfl
  | cons vid rest ih =>
    intro net rand m T hdrop
    simp only [VirtualNet.send_messages]
    split
    case h_1 rand' heq => exact ih net rand' m T hdrop
    case h_2 dt rand' heq =>
      have := hdrop rand (DeliverySchedule.ofTimestamp T)
      rw [heq] at this
      simp at this

theorem send_messages_mem_queue {C D M R : Type} :
    ∀ (rs : List ValidatorId) (net : VirtualNet C D M R) (rand : R)
      (m : Message M) (T : Timestamp) (e : QueueEntry M),
      e ∈ ((net.send_messages rand rs m T).1).msg_queue →
      e ∈ net.msg_queue ∨
        (e.message = m ∧ e.recipient ∈ rs ∧
          ∃ ρ, (net.delivery_time_strategy ρ (DeliverySchedule.ofTimestamp T)).1 =
            DeliverySchedule.AtInstant e.delivery_time) := by
  intro rs
  induction rs with
  | nil => intro net rand m T e he; exact Or.inl he
  | cons vid rest ih =>
    intro net rand m T e he
    simp only [VirtualNet.send_messages] at he
    rcases hm : net.delivery_time_strategy rand (DeliverySchedule.ofTimestamp T) with
      ⟨sched, rand'⟩
    rw [hm] at he
    cases sched with
    | Drop =>
      dsimp only at he
      rcases ih net rand' m T e he with h | ⟨h1, h2, h3⟩
      · exact Or.inl h
      · exact Or.inr ⟨h1, List.mem_cons_of_mem _ h2, h3⟩
    | AtInstant dt =>
      dsimp only at he
      rcases ih (net.schedule_message dt vid m) rand' m T e he with h | ⟨h1, h2, h3⟩
      · rcases List.mem_append.mp h with h' | h'
        · exact Or.inl h'
        · have he' : e = QueueEntry.mk dt vid m := by simpa using h'
          subst he'
          refine Or.inr ⟨rfl, List.mem_cons_self _ _, ⟨rand, ?_⟩⟩
          rw [hm]
      · exact Or.inr ⟨h1, List.mem_cons_of_mem _ h2, h3⟩

theorem dispatch_messages_frame {C D M R : Type} :
    ∀ (msgs : List (TargetedMessage M)) (net : VirtualNet C D M R) (rand : R)
      (T : Timestamp),
      ((net.dispatch_messages rand T msgs).1).validators_map = net.validators_map ∧
        ((net.dispatch_messages rand T msgs).1).delivery_time_strategy =
          net.delivery_time_strategy := by
  intro msgs
  induction msgs with
  | nil => intro net rand T; exact ⟨rfl, rfl⟩
  | cons tm rest ih =>
    intro net rand T
    simp only [VirtualNet.dispatch_messages]
    rcases hsend : net.send_messages rand (net.resolveRecipients tm.target) tm.message T
      with ⟨net', rand'⟩
    dsimp only
    have hframe := send_messages_frame (net.resolveRecipients tm.target) net rand
      tm.message T
    rw [hsend] at hframe
    rcases ih net' rand' T with ⟨ih1, ih2⟩
    exact ⟨ih1.trans hframe.1, ih2.trans hframe.2⟩

theorem dispatch_messages_queue_drop {C D M R : Type} :
    ∀ (msgs : List (TargetedMessage M)) (net : VirtualNet C D M R) (rand : R)
      (T : Timestamp),
      (∀ ρ i, (net.delivery_time_strategy ρ i).1 = DeliverySchedule.Drop) →
      ((net.dispatch_messages rand T msgs).1).msg_queue = net.msg_queue := by
  intro msgs
  induction msgs with
  | nil => intro net rand T _; rfl
  | cons tm rest ih =>
    intro net rand T hdrop
    simp only [VirtualNet.dispatch_messages]
    rcases hsend : net.send_messages rand (net.resolveRecipients tm.target) tm.message T
      with ⟨net', rand'⟩
    dsimp only
    have hframe := send_messages_frame (net.resolveRecipients tm.target) net rand
      tm.message T
    rw [hsend] at hframe
    have hq := send_messages_queue_drop (net.resolveRecipients tm.target) net rand
      tm.message T hdrop
    rw [hsend] at hq
    have hdrop' : ∀ ρ i, (net'.delivery_time_strategy ρ i).1 = DeliverySchedule.Drop := by
      intro ρ i
      rw [hframe.2]
      exact hdrop ρ i
    rw [ih net' rand' T hdrop', hq]

theorem dispatch_messages_mem_queue {C D M R : Type} :
    ∀ (msgs : List (TargetedMessage M)) (net : VirtualNet C D M R) (rand : R)
      (T : Timestamp) (e : QueueEntry M),
      e ∈ ((net.dispatch_messages rand T msgs).1).msg_queue →
      e ∈ net.msg_queue ∨
        ∃ tm ∈ msgs, e.message = tm.message ∧
          e.recipient ∈ net.resolveRecipients tm.target ∧
          ∃ ρ, (net.delivery_time_strategy ρ (DeliverySchedule.ofTimestamp T)).1 =
            DeliverySchedule.AtInstant e.delivery_time := by
  intro msgs
  induction msgs with
  | nil => intro net rand T e he; exact Or.inl he
  | cons tm rest ih =>
    intro net rand T e he
    simp only [VirtualNet.dispatch_messages] at he
    rcases hsend : net.send_messages rand (net.resolveRecipients tm.target) tm.message T
      with ⟨net', rand'⟩
    rw [hsend] at he
    dsimp only at he
    have hframe := send_messages_frame (net.resolveRecipients tm.target) net rand
      tm.message T
    rw [hsend] at hframe
    have hresolve : ∀ t, net'.resolveRecipients t = net.resolveRecipients t := by
      intro t
      cases t with
      | All =>
        simp only [VirtualNet.resolveRecipients, VirtualNet.validators_ids]
        rw [hframe.1]
      | SingleValidator id => rfl
    rcases ih net' rand' T e he with h | ⟨tm', htm', h1, h2, h3⟩
    · rcases send_messages_mem_queue (net.resolveRecipients tm.target) net rand
          tm.message T e (by rw [hsend]; exact h) with h' | ⟨h1, h2, h3⟩
      · exact Or.inl h'
      · exact Or.inr ⟨tm, List.mem_cons_self _ _, h1, h2, h3⟩
    · refine Or.inr ⟨tm', List.mem_cons_of_mem _ htm', h1, ?_, ?_⟩
      · rw [← hresolve tm'.target]; exact h2
      · rw [← hframe.2]; exact h3

/-- Claim C4: under a strategy that always returns `Drop`, dispatching any
vector of targeted messages leaves the queue unchanged (so a pop right
after a dispatch on an initially empty queue returns the explicit empty
result); and in general every entry in the queue after a dispatch either
was already there or records a `(recipient, message)` pair from the
dispatched messages for which the strategy resolved the proposed time to
`AtInstant` of the entry's delivery time. -/
theorem drop_exclusivity {C D M R : Type} (net : VirtualNet C D M R) (rand : R)
    (T : Timestamp) (msgs : List (TargetedMessage M)) :
    ((∀ ρ i, (net.delivery_time_strategy ρ i).1 = DeliverySchedule.Drop) →
        ((net.dispatch_messages rand T msgs).1).msg_queue = net.msg_queue ∧
          (net.msg_queue = [] →
            (((net.dispatch_messages rand T msgs).1).pop_message).1 = none)) ∧
      ∀ e ∈ ((net.dispatch_messages rand T msgs).1).msg_queue,
        e ∈ net.msg_queue ∨
          ∃ tm ∈ msgs, e.message = tm.message ∧
            e.recipient ∈ net.resolveRecipients tm.target ∧
            ∃ ρ, (net.delivery_time_strategy ρ (DeliverySchedule.ofTimestamp T)).1 =
              DeliverySchedule.AtInstant e.delivery_time := by
  constructor
  · intro hdrop
    have hq := dispatch_messages_queue_drop msgs net rand T hdrop
    refine ⟨hq, ?_⟩
    intro hempty
    simp [VirtualNet.pop_message, hq, hempty, Queue.pop]
  · intro e he
    exact dispatch_messages_mem_queue msgs net rand T e he

/-- Witness for C4: an always-`Drop` strategy net, one broadcast message;
the queue stays empty and the pop is empty. -/
theorem drop_exclusivity_witness :
    (((VirtualNet.new (C := Nat) (D := Nat) (M := Nat) (R := Nat)
              [Validator.new 1 false 0]
              (fun rng _ => (DeliverySchedule.Drop, rng)) []).dispatch_messages 0 2
            [TargetedMessage.mk (Message.mk 1 7) Target.All]).1.pop_message).1 =
      none :=
  ((drop_exclusivity
        (VirtualNet.new (C := Nat) (D := Nat) (M := Nat) (R := Nat)
          [Validator.new 1 false 0] (fun rng _ => (DeliverySchedule.Drop, rng)) [])
        0 2 [TargetedMessage.mk (Message.mk 1 7) Target.All]).1
      (fun _ _ => rfl)).2 rfl

/-- Claim C3: dispatching one `Target::All` message on a net whose registry
holds exactly the two distinct validators `A` and `B`, under the identity
delivery strategy, enqueues exactly one entry per registered validator,
each carrying the original message at the proposed delivery time; popping
until empty yields exactly the pairs `(A, message)` and `(B, message)`
(as a set: the pop list is a permutation of that two-element list). -/
theorem broadcast_completeness {C D M R : Type} (A B : ValidatorId) (hAB : A ≠ B)
    (vA vB : Validator C M D) (hA : vA.id = A) (hB : vB.id = B)
    (rand : R) (T : Timestamp) (m : Message M) :
    ((VirtualNet.new [vA, vB] (noOpDelay (R := R)) []).dispatch_messages rand T
        [TargetedMessage.mk m Target.All]).1.msg_queue.length = 2 ∧
      (∀ e ∈ ((VirtualNet.new [vA, vB] (noOpDelay (R := R)) []).dispatch_messages
          rand T [TargetedMessage.mk m Target.All]).1.msg_queue,
        e.message = m ∧ e.delivery_time = T) ∧
      ((Queue.popAll ((VirtualNet.new [vA, vB] (noOpDelay (R := R)) []).dispatch_messages
            rand T [TargetedMessage.mk m Target.All]).1.msg_queue).map
          (fun e => (e.recipient, e.message))).Perm [(A, m), (B, m)] := by
  subst hA
  subst hB
  rcases Nat.lt_trichotomy vA.id vB.id with hlt | heq | hgt
  · have h1 : ¬ vB.id < vA.id := Nat.lt_asymm hlt
    have h2 : ¬ vB.id = vA.id := Ne.symm (Nat.ne_of_lt hlt)
    have hq : ((VirtualNet.new [vA, vB] (noOpDelay (R := R)) []).dispatch_messages rand T
        [TargetedMessage.mk m Target.All]).1.msg_queue
        = [QueueEntry.mk T vA.id m, QueueEntry.mk T vB.id m] := by
      simp [VirtualNet.new, VirtualNet.dispatch_messages, VirtualNet.resolveRecipients,
        VirtualNet.validators_ids, btKeys, btInsert, h1, h2,
        VirtualNet.send_messages, noOpDelay, DeliverySchedule.ofTimestamp,
        DeliverySchedule.at, VirtualNet.schedule_message, Queue.push, Queue.empty]
    refine ⟨by rw [hq]; rfl, ?_, ?_⟩
    · rw [hq]
      intro e he
      rcases List.mem_cons.mp he with rfl | he'
      · exact ⟨rfl, rfl⟩
      · rcases List.mem_cons.mp he' with rfl | he''
        · exact ⟨rfl, rfl⟩
        · simp at he''
    · rw [hq]
      exact List.Perm.map _ (Queue.popAll_perm _)
  · exact absurd heq hAB
  · have h1 : vB.id < vA.id := hgt
    have hq : ((VirtualNet.new [vA, vB] (noOpDelay (R := R)) []).dispatch_messages rand T
        [TargetedMessage.mk m Target.All]).1.msg_queue
        = [QueueEntry.mk T vB.id m, QueueEntry.mk T vA.id m] := by
      simp [VirtualNet.new, VirtualNet.dispatch_messages, VirtualNet.resolveRecipients,
        VirtualNet.validators_ids, btKeys, btInsert, h1,
        VirtualNet.send_messages, noOpDelay, DeliverySchedule.ofTimestamp,
        DeliverySchedule.at, VirtualNet.schedule_message, Queue.push, Queue.empty]
    refine ⟨by rw [hq]; rfl, ?_, ?_⟩
    · rw [hq]
      intro e he
      rcases List.mem_cons.mp he with rfl | he'
      · exact ⟨rfl, rfl⟩
      · rcases List.mem_cons.mp he' with rfl | he''
        · exact ⟨rfl, rfl⟩
        · simp at he''
    · rw [hq]
      exact (List.Perm.map _ (Queue.popAll_perm _)).trans
        (List.Perm.swap (vA.id, m) (vB.id, m) [])

/-- Witness for C3 at validators 1 and 2, message payload 9, time 4. -/
theorem broadcast_completeness_witness :
    ((Queue.popAll ((VirtualNet.new (C := Nat) (D := Nat) (M := Nat) (R := Nat)
              [Validator.new 1 false 0, Validator.new 2 false 0] noOpDelay
              []).dispatch_messages 0 4
            [TargetedMessage.mk (Message.mk 1 9) Target.All]).1.msg_queue).map
        (fun e => (e.recipient, e.message))).Perm
      [(1, Message.mk 1 9), (2, Message.mk 1 9)] :=
  (broadcast_completeness 1 2 (by decide) (Validator.new 1 false 0)
      (Validator.new 2 false 0) rfl rfl 0 4 (Message.mk 1 9)).2.2

theorem step_deterministic {C D M R : Type} {s : NetState C D M R}
    {c : DriverCall M} {o1 o2 : NetState C D M R × Observation M}
    (h1 : Step s c o1) (h2 : Step s c o2) : o1 = o2 := by
  cases h1 <;> cases h2 <;> rfl

/-- Claim C1: a run of the `VirtualNet` is deterministic.  For a fixed
initial state — net plus explicit random-source seed state — and a fixed
sequence of driver calls (`dispatch_messages` and `pop_message` with the
same arguments), any two executions make the same observations: identical
queue contents after each call and the same sequence of popped entries,
and they end in the same state.  Every operation takes its random source
as the explicit threaded state; none draws from ambient state (there is no
other state in the embedding for it to draw from). -/
theorem virtual_net_run_deterministic {C D M R : Type} {s : NetState C D M R}
    {cs : List (DriverCall M)} {obs1 obs2 : List (Observation M)}
    {s1 s2 : NetState C D M R} (h1 : Run s cs obs1 s1) (h2 : Run s cs obs2 s2) :
    obs1 = obs2 ∧ s1 = s2 := by
  induction h1 generalizing obs2 s2 with
  | nil =>
    cases h2
    exact ⟨rfl, rfl⟩
  | cons hstep hrun ih =>
    cases h2 with
    | cons hstep2 hrun2 =>
      have heq := step_deterministic hstep hstep2
      rw [Prod.mk.injEq] at heq
      obtain ⟨hs, hobs⟩ := heq
      subst hs
      subst hobs
      obtain ⟨ho, hs'⟩ := ih hrun2
      exact ⟨by rw [ho], hs'⟩

/-- Witness for C1: a concrete two-call run (one broadcast dispatch, one
pop) executed twice from the same seeded state makes equal observations. -/
theorem virtual_net_run_deterministic_witness :
    ([([QueueEntry.mk 3 1 (Message.mk 1 8)], none),
        ([], some (QueueEntry.mk 3 1 (Message.mk 1 8)))] : List (Observation Nat)) =
      [([QueueEntry.mk 3 1 (Message.mk 1 8)], none),
        ([], some (QueueEntry.mk 3 1 (Message.mk 1 8)))] := by
  have h : Run (VirtualNet.new (C := Nat) (D := Nat) (M := Nat) (R := Nat)
        [Validator.new 1 false 0] noOpDelay [], 0)
      [DriverCall.dispatch 3 [TargetedMessage.mk (Message.mk 1 8) Target.All],
        DriverCall.pop]
      [([QueueEntry.mk 3 1 (Message.mk 1 8)], none),
        ([], some (QueueEntry.mk 3 1 (Message.mk 1 8)))]
      (⟨[(1, Validator.new 1 false 0)], [], noOpDelay⟩, 0) :=
    Run.cons (Step.dispatch _ 0 3 _) (Run.cons (Step.pop _ _) (Run.nil _))
  exact (virtual_net_run_deterministic h h).1

end DesTesting
